import Mathlib

/-!
Verification of the RIFF/WAVE audio merge core of the repository.
Byte buffers are modelled as `List Nat` (each entry the value of one `u8`),
MIME strings as `List Char`.  Machine-integer truncation (`as u32`) is made
explicit with `% 4294967296`.  Fallible functions return `Except String`.
-/

/-- Decidable equality for `Except`, needed to evaluate parser results. -/
instance {ε α : Type} [DecidableEq ε] [DecidableEq α] : DecidableEq (Except ε α) :=
  fun a b =>
    match a, b with
    | .error e1, .error e2 =>
      if h : e1 = e2 then isTrue (by rw [h]) else isFalse (by intro hh; cases hh; exact h rfl)
    | .ok v1, .ok v2 =>
      if h : v1 = v2 then isTrue (by rw [h]) else isFalse (by intro hh; cases hh; exact h rfl)
    | .error _, .ok _ => isFalse (by intro hh; cases hh)
    | .ok _, .error _ => isFalse (by intro hh; cases hh)

/-- ASCII bytes of the literal tag b"RIFF". -/
def riffTag : List Nat := [82, 73, 70, 70]

/-- ASCII bytes of the literal tag b"WAVE". -/
def waveTag : List Nat := [87, 65, 86, 69]

/-- ASCII bytes of the literal tag b"fmt " (note the trailing space). -/
def fmtTag : List Nat := [102, 109, 116, 32]

/-- ASCII bytes of the literal tag b"data". -/
def dataTag : List Nat := [100, 97, 116, 97]

/-- Little-endian bytes of a `u16` value (`u16::to_le_bytes`). -/
def le16 (v : Nat) : List Nat := [v % 256, v / 256 % 256]

/-- Little-endian bytes of a `u32` value (`u32::to_le_bytes`). -/
def le32 (v : Nat) : List Nat :=
  [v % 256, v / 256 % 256, v / 65536 % 256, v / 16777216 % 256]

/-- Value of a little-endian byte list (`uN::from_le_bytes`). -/
def leNat (l : List Nat) : Nat := l.foldr (fun b acc => b + 256 * acc) 0

/-- Read of `u16::from_le_bytes(bytes[off..off+2])`; in the source every such
read is guarded by a bounds check, under which this slice has length 2. -/
def readLE16 (bytes : List Nat) (off : Nat) : Nat := leNat ((bytes.drop off).take 2)

/-- Read of `u32::from_le_bytes(bytes[off..off+4])`; in the source every such
read is guarded by a bounds check, under which this slice has length 4. -/
def readLE32 (bytes : List Nat) (off : Nat) : Nat := leNat ((bytes.drop off).take 4)

/-- The 4-byte chunk id slice `&bytes[off..off+4]`. -/
def tagAt (bytes : List Nat) (off : Nat) : List Nat := (bytes.drop off).take 4

/-- Decoded contents of a `fmt ` sub-chunk (struct `WavFmt` in audio.rs).
Field values are the `u16`/`u32` machine values, carried as `Nat`. -/
structure WavFmt where
  audio_format : Nat
  num_channels : Nat
  sample_rate : Nat
  byte_rate : Nat
  block_align : Nat
  bits_per_sample : Nat
deriving DecidableEq, Repr

/-- Range conditions expressing that each field fits its Rust integer type
(`u16` for format, channels, alignment and bit width, `u32` for the rates). -/
def WavFmt.Valid (f : WavFmt) : Prop :=
  f.audio_format < 65536 ∧ f.num_channels < 65536 ∧ f.sample_rate < 4294967296 ∧
    f.byte_rate < 4294967296 ∧ f.block_align < 65536 ∧ f.bits_per_sample < 65536

instance (f : WavFmt) : Decidable f.Valid := by
  unfold WavFmt.Valid; infer_instance

/-- The chunk-scanning loop shared by `parse_wav_fmt` and `parse_wav_data`
(audio.rs lines 81-137 and 146-158): starting at `off`, while `off + 8` fits,
read the 4-byte id and the little-endian 4-byte declared size; stop (not
found) if the chunk body would overrun the buffer; return `(body start, size)`
on the first id equal to `target`; otherwise advance past the body plus one
pad byte when the size is odd (chunks are word-aligned).  The `fuel` argument
only bounds the recursion; every call below passes `bytes.length + 1`, which
is never exhausted because each iteration advances `off` by at least 8
(proved via the checked variant in the totality theorem). -/
def findChunkAux (bytes target : List Nat) : Nat → Nat → Option (Nat × Nat)
  | 0, _ => none
  | fuel + 1, off =>
    if off + 8 ≤ bytes.length then
      let sz := readLE32 bytes (off + 4)
      if off + 8 + sz > bytes.length then none
      else if tagAt bytes off = target then some (off + 8, sz)
      else findChunkAux bytes target fuel (off + 8 + sz + sz % 2)
    else none

/-- Scan all sub-chunks after the 12-byte outer header. -/
def findChunk (bytes target : List Nat) : Option (Nat × Nat) :=
  findChunkAux bytes target (bytes.length + 1) 12

/-- audio.rs `parse_wav_fmt`: validate the outer RIFF/WAVE header, scan for
the first `fmt ` chunk, require its declared size to be at least 16, and
decode the six little-endian fields; also return the declared chunk size. -/
def parse_wav_fmt (bytes : List Nat) : Except String (WavFmt × Nat) :=
  if bytes.length < 12 ∨ tagAt bytes 0 ≠ riffTag ∨ tagAt bytes 8 ≠ waveTag then
    .error "invalid WAV header"
  else
    match findChunk bytes fmtTag with
    | none => .error "fmt chunk not found"
    | some (start, sz) =>
      if sz < 16 then .error "fmt chunk too small"
      else
        .ok ({ audio_format := readLE16 bytes start
               num_channels := readLE16 bytes (start + 2)
               sample_rate := readLE32 bytes (start + 4)
               byte_rate := readLE32 bytes (start + 8)
               block_align := readLE16 bytes (start + 12)
               bits_per_sample := readLE16 bytes (start + 14) }, sz)

/-- audio.rs `parse_wav_data`: validate the outer header and return the body
slice of the first `data` chunk. -/
def parse_wav_data (bytes : List Nat) : Except String (List Nat) :=
  if bytes.length < 12 ∨ tagAt bytes 0 ≠ riffTag ∨ tagAt bytes 8 ≠ waveTag then
    .error "invalid WAV header"
  else
    match findChunk bytes dataTag with
    | none => .error "data chunk not found"
    | some (start, sz) => .ok ((bytes.drop start).take sz)

/-- audio.rs `write_wav_header`: emit the RIFF header, the `fmt ` chunk with
declared size clamped to at least 16 (extra declared bytes zero-padded) and
the `data` tag with its 4-byte length.  The payload itself is appended by the
caller.  `data_len as u32` is the explicit `% 4294967296` truncation; the Rust
function returns `Result` but has no error path. -/
def write_wav_header (fmt : WavFmt) (fmt_size : Nat) (data_len : Nat) : List Nat :=
  let fs := if fmt_size < 16 then 16 else fmt_size
  let riff_chunk_size := (4 + (8 + fs) + (8 + data_len % 4294967296)) % 4294967296
  riffTag ++ le32 riff_chunk_size ++ waveTag ++
    fmtTag ++ le32 fs ++
    le16 fmt.audio_format ++ le16 fmt.num_channels ++
    le32 fmt.sample_rate ++ le32 fmt.byte_rate ++
    le16 fmt.block_align ++ le16 fmt.bits_per_sample ++
    (if fs > 16 then List.replicate (fs - 16) 0 else []) ++
    dataTag ++ le32 (data_len % 4294967296)

/-- audio.rs `merge_concat`: byte concatenation of the parts in order. -/
def merge_concat (parts : List (List Nat)) : List Nat := parts.flatten

/-- audio.rs `merge_mp3`: simple byte concatenation. -/
def merge_mp3 (parts : List (List Nat)) : List Nat := merge_concat parts

/-- Loop body of `try_merge_wav` over the fragments after the first
(audio.rs lines 47-55): parse each fragment's format, require equality with
the first fragment's format (else the mismatch error), and collect the data
payloads in order. -/
def mergeRest (fmt : WavFmt) : List (List Nat) → Except String (List (List Nat))
  | [] => .ok []
  | w :: ws =>
    match parse_wav_fmt w with
    | .error e => .error e
    | .ok (fmt_n, _) =>
      if fmt = fmt_n then
        match parse_wav_data w with
        | .error e => .error e
        | .ok d =>
          match mergeRest fmt ws with
          | .error e => .error e
          | .ok ds => .ok (d :: ds)
      else .error "WAV format mismatch across chunks"

/-- audio.rs `try_merge_wav`: empty input yields empty output; otherwise parse
the first fragment's format (keeping its declared `fmt ` size) and data, check
every later fragment against it, then emit one fresh header for the summed
payload length followed by all payloads in order. -/
def try_merge_wav (parts : List (List Nat)) : Except String (List Nat) :=
  match parts with
  | [] => .ok []
  | p0 :: rest =>
    match parse_wav_fmt p0 with
    | .error e => .error e
    | .ok (fmt, fmt_size) =>
      match parse_wav_data p0 with
      | .error e => .error e
      | .ok d0 =>
        match mergeRest fmt rest with
        | .error e => .error e
        | .ok ds =>
          let total := d0.length + (ds.map List.length).sum
          .ok (write_wav_header fmt fmt_size total ++ (d0 :: ds).flatten)

/-- Substring test used to model Rust's `str::contains` with a string pattern
(case-sensitive): some suffix of the haystack starts with the needle. -/
def strContains : List Char → List Char → Bool
  | [], needle => needle.isEmpty
  | c :: t, needle => needle.isPrefixOf (c :: t) || strContains t needle

/-- audio.rs `guess_audio_extension`: first matching rule of the fixed
priority list wins; total, case-sensitive substring matching. -/
def guess_audio_extension (mime : List Char) : List Char :=
  if strContains mime ("mpeg".toList) || strContains mime ("mp3".toList) then
    ".mp3".toList
  else if strContains mime ("wav".toList) || strContains mime ("x-wav".toList) ||
      strContains mime ("pcm".toList) || strContains mime ("linear16".toList) then
    ".wav".toList
  else if strContains mime ("ogg".toList) then ".ogg".toList
  else if strContains mime ("flac".toList) then ".flac".toList
  else ".bin".toList

/-- Merge-strategy selection of `process_file` (main.rs lines 117-144): the
shared MIME type is the first fragment's (octet-stream when there are no
fragments); a single fragment is passed through unchanged; an MP3-like MIME
is concatenated; a WAV-like MIME goes through `try_merge_wav`, falling back
to plain concatenation when that fails; anything else is concatenated. -/
def dispatch_merge (parts : List (List Nat × List Char)) : List Nat :=
  let mime : List Char :=
    match parts with
    | [] => "application/octet-stream".toList
    | (_, m) :: _ => m
  if parts.length = 1 then (parts.headD ([], [])).1
  else if strContains mime ("mpeg".toList) || strContains mime ("mp3".toList) then
    merge_mp3 (parts.map Prod.fst)
  else if strContains mime ("wav".toList) || strContains mime ("x-wav".toList) ||
      strContains mime ("pcm".toList) then
    match try_merge_wav (parts.map Prod.fst) with
    | .ok bytes => bytes
    | .error _ => merge_concat (parts.map Prod.fst)
  else merge_concat (parts.map Prod.fst)

/-- Silence threshold of the 16-bit branch: the Rust constant expression
`(32767f32 * 0.01) as i32` evaluates to 327 (32767 * 0.01f32 is about
327.66998, and the `as i32` cast truncates toward zero). -/
def silenceThreshold16 : Nat := 327

/-- Signed 16-bit value of two little-endian bytes
(`i16::from_le_bytes([b0, b1]) as i32`). -/
def int16OfLE (b0 b1 : Nat) : Int :=
  if b0 + 256 * b1 < 32768 then (b0 + 256 * b1 : Int) else (b0 + 256 * b1 : Int) - 65536

/-- Counting loop of the PCM-16 branch of `estimate_wav_silence_ratio`
(audio.rs lines 257-266): walk the data two bytes at a time while a full
sample remains (a trailing odd byte is not counted), tallying
(silent samples, total samples); a sample is silent when its absolute value
is at most the threshold. -/
def count16 : List Nat → Nat × Nat
  | b0 :: b1 :: rest =>
    let s := int16OfLE b0 b1
    let p := count16 rest
    (if s.natAbs ≤ silenceThreshold16 then p.1 + 1 else p.1, p.2 + 1)
  | _ => (0, 0)

/-- PCM-16 path of audio.rs `estimate_wav_silence_ratio`: parse format and
data, return 1 for an empty payload, and for audio format 1 with 16 bits per
sample return silent-count over total-count.  The ratio is carried as an
exact rational: the Rust value is `(silent as f32) / (total as f32)`, and at
the boundary points proved below (silent = total and silent = 0, with
0 < total ≤ usize::MAX so both casts are finite and nonzero) IEEE-754
division returns exactly 1.0 and exactly 0.0, so the rational model agrees
with the f32 computation there.  The IEEE-float (3, 32) branch and the
generic fallback branch of the source are outside this embedding. -/
def estimate_wav_silence_ratio_pcm16 (bytes : List Nat) : Except String ℚ :=
  match parse_wav_fmt bytes with
  | .error e => .error e
  | .ok (fmt, _) =>
    match parse_wav_data bytes with
    | .error e => .error e
    | .ok data =>
      if data.length = 0 then .ok 1
      else if fmt.audio_format = 1 ∧ fmt.bits_per_sample = 16 then
        if data.length / 2 = 0 then .ok 1
        else
          let c := count16 data
          .ok ((c.1 : ℚ) / (c.2 : ℚ))
      else .error "branch outside the PCM-16 model"

/-- Rust slice access `&bytes[a..b]`, modelled with its bounds check made
explicit: out-of-range indexing (a panic in Rust) is `none`. -/
def sliceChecked (bytes : List Nat) (a b : Nat) : Option (List Nat) :=
  if a ≤ b ∧ b ≤ bytes.length then some ((bytes.drop a).take (b - a)) else none

/-- Instrumented chunk scanner: identical control flow to `findChunkAux`, but
every slice access goes through `sliceChecked`, and running out of fuel also
yields the outer `none`.  The outer `none` therefore marks a panic or fuel
exhaustion; `some none` is the loop terminating without a match. -/
def findChunkAuxC (bytes target : List Nat) (fuel off : Nat) : Option (Option (Nat × Nat)) :=
  if off + 8 ≤ bytes.length then
    match fuel with
    | 0 => none
    | fuel' + 1 =>
      match sliceChecked bytes off (off + 4), sliceChecked bytes (off + 4) (off + 8) with
      | some cid, some szb =>
        let sz := leNat szb
        if off + 8 + sz > bytes.length then some none
        else if cid = target then some (some (off + 8, sz))
        else findChunkAuxC bytes target fuel' (off + 8 + sz + sz % 2)
      | _, _ => none
  else some none

/-- Instrumented `parse_wav_fmt` with explicit bounds checks on every slice
access (outer `none` marks a panic). -/
def parse_wav_fmtC (bytes : List Nat) : Option (Except String (WavFmt × Nat)) :=
  if bytes.length < 12 then some (.error "invalid WAV header")
  else
    match sliceChecked bytes 0 4, sliceChecked bytes 8 12 with
    | some r, some w =>
      if r = riffTag ∧ w = waveTag then
        match findChunkAuxC bytes fmtTag (bytes.length + 1) 12 with
        | none => none
        | some none => some (.error "fmt chunk not found")
        | some (some (start, sz)) =>
          if sz < 16 then some (.error "fmt chunk too small")
          else
            match sliceChecked bytes start (start + 2), sliceChecked bytes (start + 2) (start + 4),
                sliceChecked bytes (start + 4) (start + 8), sliceChecked bytes (start + 8) (start + 12),
                sliceChecked bytes (start + 12) (start + 14),
                sliceChecked bytes (start + 14) (start + 16) with
            | some f0, some f1, some f2, some f3, some f4, some f5 =>
              some (.ok ({ audio_format := leNat f0, num_channels := leNat f1,
                           sample_rate := leNat f2, byte_rate := leNat f3,
                           block_align := leNat f4, bits_per_sample := leNat f5 }, sz))
            | _, _, _, _, _, _ => none
      else some (.error "invalid WAV header")
    | _, _ => none

/-- Instrumented `parse_wav_data` with explicit bounds checks on every slice
access (outer `none` marks a panic). -/
def parse_wav_dataC (bytes : List Nat) : Option (Except String (List Nat)) :=
  if bytes.length < 12 then some (.error "invalid WAV header")
  else
    match sliceChecked bytes 0 4, sliceChecked bytes 8 12 with
    | some r, some w =>
      if r = riffTag ∧ w = waveTag then
        match findChunkAuxC bytes dataTag (bytes.length + 1) 12 with
        | none => none
        | some none => some (.error "data chunk not found")
        | some (some (start, sz)) =>
          match sliceChecked bytes start (start + sz) with
          | some payload => some (.ok payload)
          | none => none
      else some (.error "invalid WAV header")
    | _, _ => none

/-- Example format descriptor: integer PCM, mono, 16 bit, 24000 Hz. -/
def fmtPCM : WavFmt := ⟨1, 1, 24000, 48000, 2, 16⟩

/-- Example format descriptor: integer PCM, mono, 16 bit, 16000 Hz. -/
def fmtPCM16k : WavFmt := ⟨1, 1, 16000, 32000, 2, 16⟩

/-- A tiny 24000 Hz WAV fragment with payload [1, 2, 3, 4]. -/
def wav24kA : List Nat := write_wav_header fmtPCM 16 4 ++ [1, 2, 3, 4]

/-- A tiny 24000 Hz WAV fragment with payload [5, 6]. -/
def wav24kB : List Nat := write_wav_header fmtPCM 16 2 ++ [5, 6]

/-- A tiny 16000 Hz WAV fragment (format differs from fmtPCM). -/
def wav16k : List Nat := write_wav_header fmtPCM16k 16 2 ++ [9, 9]

/-- An all-zero payload of exactly 2^32 bytes. -/
def bigPayload : List Nat := List.replicate 4294967296 0

/-- An all-zero payload of exactly 2^31 bytes. -/
def halfPayload : List Nat := List.replicate 2147483648 0

/-- A WAV fragment whose data chunk holds 2^31 bytes. -/
def wavHalf : List Nat := write_wav_header fmtPCM 16 2147483648 ++ halfPayload

/-- The buffer produced by merging two copies of wavHalf: the combined
payload is 2^32 bytes, so the 32-bit data length field wraps to 0. -/
def mergedHalves : List Nat :=
  write_wav_header fmtPCM 16 4294967296 ++ (halfPayload ++ (halfPayload ++ []))

/-- Dropping a whole leading block of known length. -/
theorem drop_peel {α : Type} (l r : List α) (k m : Nat) (h : m = l.length + k) :
    (l ++ r).drop m = r.drop k := by
  subst h
  induction l with
  | nil => simp
  | cons a t ih =>
      have h2 : t.length + 1 + k = (t.length + k) + 1 := by omega
      simp only [List.cons_append, List.length_cons, h2, List.drop_succ_cons]
      exact ih

/-- One scan step that finds the target chunk. -/
theorem findChunkAux_found {bytes target : List Nat} {fuel off : Nat}
    (hf : 0 < fuel) (hoff : off + 8 ≤ bytes.length)
    (hfit : off + 8 + readLE32 bytes (off + 4) ≤ bytes.length)
    (hid : tagAt bytes off = target) :
    findChunkAux bytes target fuel off = some (off + 8, readLE32 bytes (off + 4)) := by
  cases fuel with
  | zero => omega
  | succ f => simp [findChunkAux, hoff, Nat.not_lt.mpr hfit, hid]

/-- One scan step over a non-matching chunk (word-aligned advance). -/
theorem findChunkAux_skip {bytes target : List Nat} {fuel off : Nat}
    (hoff : off + 8 ≤ bytes.length)
    (hfit : off + 8 + readLE32 bytes (off + 4) ≤ bytes.length)
    (hid : tagAt bytes off ≠ target) :
    findChunkAux bytes target (fuel + 1) off =
      findChunkAux bytes target fuel
        (off + 8 + readLE32 bytes (off + 4) + readLE32 bytes (off + 4) % 2) := by
  simp [findChunkAux, hoff, Nat.not_lt.mpr hfit, hid]

/-- Length of an emitted header whose declared fmt size is at least 16. -/
theorem wwh_length (f : WavFmt) (fs dl : Nat) (h : 16 ≤ fs) :
    (write_wav_header f fs dl).length = 28 + fs := by
  rcases Nat.lt_or_ge 16 fs with h1 | h1
  · simp [write_wav_header, le16, le32, riffTag, waveTag, fmtTag, dataTag,
      Nat.not_lt.mpr h, h1]
    omega
  · have : fs = 16 := by omega
    subst this
    simp [write_wav_header, le16, le32, riffTag, waveTag, fmtTag, dataTag]

theorem wwh_tag0 (f : WavFmt) (fs dl : Nat) (t : List Nat) :
    tagAt (write_wav_header f fs dl ++ t) 0 = riffTag := by
  simp [write_wav_header, tagAt, le16, le32, riffTag, waveTag, fmtTag, dataTag]

theorem wwh_tag8 (f : WavFmt) (fs dl : Nat) (t : List Nat) :
    tagAt (write_wav_header f fs dl ++ t) 8 = waveTag := by
  simp [write_wav_header, tagAt, le16, le32, riffTag, waveTag, fmtTag, dataTag]

/-- Round trip for the format chunk of a header written with declared size
16: the scanner finds it at offset 12 and decodes the six fields reduced to
their machine widths. -/
theorem roundtrip_fmt16 (f : WavFmt) (dl : Nat) (p : List Nat) :
    parse_wav_fmt (write_wav_header f 16 dl ++ p) =
      .ok ({ audio_format := f.audio_format % 65536
             num_channels := f.num_channels % 65536
             sample_rate := f.sample_rate % 4294967296
             byte_rate := f.byte_rate % 4294967296
             block_align := f.block_align % 65536
             bits_per_sample := f.bits_per_sample % 65536 }, 16) := by
  have hlen : (write_wav_header f 16 dl ++ p).length = 44 + p.length := by
    simp [wwh_length, List.length_append]
  have ht0 := wwh_tag0 f 16 dl p
  have ht8 := wwh_tag8 f 16 dl p
  have ht12 : tagAt (write_wav_header f 16 dl ++ p) 12 = fmtTag := by
    simp [write_wav_header, tagAt, le16, le32, riffTag, waveTag, fmtTag, dataTag]
  have hsz : readLE32 (write_wav_header f 16 dl ++ p) 16 = 16 := by
    simp [write_wav_header, readLE32, leNat, le16, le32, riffTag, waveTag, fmtTag, dataTag]
  have hfind : findChunk (write_wav_header f 16 dl ++ p) fmtTag = some (20, 16) := by
    unfold findChunk
    rw [findChunkAux_found (by omega) (by omega) (by rw [hsz]; omega) ht12]
    rw [hsz]
  rw [parse_wav_fmt, if_neg (by
    push_neg
    refine ⟨by omega, ht0, ht8⟩), hfind]
  have d1 : readLE16 (write_wav_header f 16 dl ++ p) 20 = f.audio_format % 65536 := by
    simp [write_wav_header, readLE16, leNat, le16, le32, riffTag, waveTag, fmtTag, dataTag]
    omega
  have d2 : readLE16 (write_wav_header f 16 dl ++ p) 22 = f.num_channels % 65536 := by
    simp [write_wav_header, readLE16, leNat, le16, le32, riffTag, waveTag, fmtTag, dataTag]
    omega
  have d3 : readLE32 (write_wav_header f 16 dl ++ p) 24 = f.sample_rate % 4294967296 := by
    simp [write_wav_header, readLE32, leNat, le16, le32, riffTag, waveTag, fmtTag, dataTag]
    omega
  have d4 : readLE32 (write_wav_header f 16 dl ++ p) 28 = f.byte_rate % 4294967296 := by
    simp [write_wav_header, readLE32, leNat, le16, le32, riffTag, waveTag, fmtTag, dataTag]
    omega
  have d5 : readLE16 (write_wav_header f 16 dl ++ p) 32 = f.block_align % 65536 := by
    simp [write_wav_header, readLE16, leNat, le16, le32, riffTag, waveTag, fmtTag, dataTag]
    omega
  have d6 : readLE16 (write_wav_header f 16 dl ++ p) 34 = f.bits_per_sample % 65536 := by
    simp [write_wav_header, readLE16, leNat, le16, le32, riffTag, waveTag, fmtTag, dataTag]
    omega
  simp [d1, d2, d3, d4, d5, d6]

/-- Round trip for the data chunk of a header written with declared size 16:
the scanner skips the 16-byte fmt chunk (even size, no pad byte) and returns
the payload clipped to the truncated 32-bit length field. -/
theorem roundtrip_data16 (f : WavFmt) (dl : Nat) (p : List Nat) (hp : p.length = dl) :
    parse_wav_data (write_wav_header f 16 dl ++ p) = .ok (p.take (dl % 4294967296)) := by
  have hlen : (write_wav_header f 16 dl ++ p).length = 44 + dl := by
    simp [wwh_length, List.length_append, hp]
  have ht0 := wwh_tag0 f 16 dl p
  have ht8 := wwh_tag8 f 16 dl p
  have ht12 : tagAt (write_wav_header f 16 dl ++ p) 12 = fmtTag := by
    simp [write_wav_header, tagAt, le16, le32, riffTag, waveTag, fmtTag, dataTag]
  have hsz : readLE32 (write_wav_header f 16 dl ++ p) 16 = 16 := by
    simp [write_wav_header, readLE32, leNat, le16, le32, riffTag, waveTag, fmtTag, dataTag]
  have ht36 : tagAt (write_wav_header f 16 dl ++ p) 36 = dataTag := by
    simp [write_wav_header, tagAt, le16, le32, riffTag, waveTag, fmtTag, dataTag]
  have hsz36 : readLE32 (write_wav_header f 16 dl ++ p) 40 = dl % 4294967296 := by
    simp [write_wav_header, readLE32, leNat, le16, le32, riffTag, waveTag, fmtTag, dataTag]
    omega
  have hdrop44 : (write_wav_header f 16 dl ++ p).drop 44 = p := by
    simp [write_wav_header, le16, le32, riffTag, waveTag, fmtTag, dataTag]
  have hfind : findChunk (write_wav_header f 16 dl ++ p) dataTag =
      some (44, dl % 4294967296) := by
    unfold findChunk
    rw [hlen]
    rw [findChunkAux_skip (by omega) (by rw [hsz]; omega)
      (by rw [ht12]; decide)]
    rw [hsz]
    have harith : 12 + 8 + 16 + 16 % 2 = 36 := by norm_num
    rw [harith]
    rw [findChunkAux_found (by omega) (by omega)
      (by rw [hsz36]; omega) ht36]
    rw [hsz36]
  rw [parse_wav_data, if_neg (by
    push_neg
    refine ⟨by omega, ht0, ht8⟩), hfind]
  simp [hdrop44]

/-- The emitted header splits as a 20+fs byte prefix followed by the data tag
and the truncated 32-bit data length. -/
theorem wwh_split (f : WavFmt) (fs dl : Nat) (h : 16 ≤ fs) :
    ∃ A : List Nat,
      write_wav_header f fs dl = A ++ (dataTag ++ le32 (dl % 4294967296)) ∧
        A.length = 20 + fs := by
  refine ⟨riffTag ++ le32 ((4 + (8 + fs) + (8 + dl % 4294967296)) % 4294967296) ++ waveTag ++
    fmtTag ++ le32 fs ++ le16 f.audio_format ++ le16 f.num_channels ++
    le32 f.sample_rate ++ le32 f.byte_rate ++ le16 f.block_align ++
    le16 f.bits_per_sample ++ (if fs > 16 then List.replicate (fs - 16) 0 else []), ?_, ?_⟩
  · simp [write_wav_header, Nat.not_lt.mpr h, List.append_assoc]
  · rcases Nat.lt_or_ge 16 fs with h1 | h1
    · simp [le16, le32, riffTag, waveTag, fmtTag, h1]
      omega
    · have h2 : fs = 16 := by omega
      subst h2
      simp [le16, le32, riffTag, waveTag, fmtTag]

/-- The RIFF size field of an emitted header (declared fmt size at least 16)
holds the 32-bit value of 4 + (8 + fmt size) + (8 + data length). -/
theorem wwh_riff_field (f : WavFmt) (fs dl : Nat) (t : List Nat) (h : 16 ≤ fs) :
    readLE32 (write_wav_header f fs dl ++ t) 4 =
      (4 + (8 + fs) + (8 + dl % 4294967296)) % 4294967296 := by
  simp [write_wav_header, readLE32, leNat, le16, le32, riffTag, waveTag, fmtTag, dataTag,
    Nat.not_lt.mpr h]
  omega

/-- The data length field of an emitted header sits at offset 24 + fmt size
and holds the 32-bit truncation of the data length. -/
theorem wwh_datalen_field (f : WavFmt) (fs dl : Nat) (t : List Nat) (h : 16 ≤ fs) :
    readLE32 (write_wav_header f fs dl ++ t) (24 + fs) = dl % 4294967296 := by
  obtain ⟨A, hA, hAlen⟩ := wwh_split f fs dl h
  rw [readLE32, hA, List.append_assoc]
  rw [drop_peel A (dataTag ++ le32 (dl % 4294967296) ++ t) 4 (24 + fs) (by omega)]
  have : (dataTag ++ le32 (dl % 4294967296) ++ t).drop 4 = le32 (dl % 4294967296) ++ t := by
    simp [dataTag, le32]
  rw [this]
  simp [le32, leNat]
  omega

/-- Everything after the first 28 + fmt size bytes of header-plus-tail is the
tail: the emitted header has exactly 28 + fmt size bytes. -/
theorem wwh_payload (f : WavFmt) (fs dl : Nat) (t : List Nat) (h : 16 ≤ fs) :
    (write_wav_header f fs dl ++ t).drop (28 + fs) = t := by
  rw [drop_peel (write_wav_header f fs dl) t 0 (28 + fs) (by rw [wwh_length f fs dl h]; omega)]
  simp

/-- When every later fragment parses to the first fragment's format and some
data payload, the merge loop collects exactly those payloads. -/
theorem mergeRest_ok {fmt : WavFmt} {rest ds : List (List Nat)}
    (h : List.Forall₂
      (fun w d => (∃ s, parse_wav_fmt w = .ok (fmt, s)) ∧ parse_wav_data w = .ok d)
      rest ds) :
    mergeRest fmt rest = .ok ds := by
  induction h with
  | nil => rfl
  | cons hwd _ ih =>
      obtain ⟨⟨s, hf⟩, hd⟩ := hwd
      simp [mergeRest, hf, hd, ih]

/-- Structure of a successful merge: header for the summed length, then the
payloads in order. -/
theorem try_merge_wav_ok {p0 : List Nat} {rest ds : List (List Nat)}
    {fmt : WavFmt} {fs : Nat} {d0 : List Nat}
    (hf : parse_wav_fmt p0 = .ok (fmt, fs)) (hd : parse_wav_data p0 = .ok d0)
    (hr : List.Forall₂
      (fun w d => (∃ s, parse_wav_fmt w = .ok (fmt, s)) ∧ parse_wav_data w = .ok d)
      rest ds) :
    try_merge_wav (p0 :: rest) =
      .ok (write_wav_header fmt fs (d0.length + (ds.map List.length).sum) ++
        (d0 :: ds).flatten) := by
  simp [try_merge_wav, hf, hd, mergeRest_ok hr]

/-- If every fragment of the tail parses but some fragment's format differs
from the first fragment's, the merge loop stops with the mismatch error. -/
theorem mergeRest_mismatch {fmt : WavFmt} :
    ∀ {rest : List (List Nat)},
      (∀ w ∈ rest, (∃ fw sw, parse_wav_fmt w = .ok (fw, sw)) ∧
        ∃ dw, parse_wav_data w = .ok dw) →
      (∃ w ∈ rest, ∀ fw sw, parse_wav_fmt w = .ok (fw, sw) → fw ≠ fmt) →
      mergeRest fmt rest = .error "WAV format mismatch across chunks" := by
  intro rest
  induction rest with
  | nil => intro _ hmis; obtain ⟨w, hw, _⟩ := hmis; cases hw
  | cons w ws ih =>
      intro hall hmis
      obtain ⟨⟨fw, sw, hfw⟩, ⟨dw, hdw⟩⟩ := hall w (by simp)
      by_cases hne : fw = fmt
      · subst hne
        have hnext : ∃ v ∈ ws, ∀ fv sv, parse_wav_fmt v = .ok (fv, sv) → fv ≠ fw := by
          obtain ⟨v, hv, hvne⟩ := hmis
          rcases List.mem_cons.mp hv with rfl | hv2
          · exact absurd rfl (hvne fw sw hfw)
          · exact ⟨v, hv2, hvne⟩
        have := ih (fun v hv => hall v (List.mem_cons_of_mem _ hv)) hnext
        simp [mergeRest, hfw, hdw, this]
      · have hne2 : ¬ fmt = fw := fun hh => hne hh.symm
        simp [mergeRest, hfw, hne2]

/-- A successful format parse always reports a declared chunk size of at
least 16 (smaller sizes are rejected). -/
theorem parse_fmt_sz_ge {bytes : List Nat} {f : WavFmt} {s : Nat}
    (h : parse_wav_fmt bytes = .ok (f, s)) : 16 ≤ s := by
  rw [parse_wav_fmt] at h
  by_cases hc : bytes.length < 12 ∨ tagAt bytes 0 ≠ riffTag ∨ tagAt bytes 8 ≠ waveTag
  · rw [if_pos hc] at h; cases h
  · rw [if_neg hc] at h
    rcases hfind : findChunk bytes fmtTag with _ | ⟨start, sz⟩
    · rw [hfind] at h; cases h
    · rw [hfind] at h
      by_cases hsz : sz < 16
      · simp [hsz] at h
      · simp [hsz] at h
        omega

/-- The value of at most four little-endian bytes fits in 32 bits. -/
theorem leNat_lt {l : List Nat} (hb : ∀ b ∈ l, b < 256) (hl : l.length ≤ 4) :
    leNat l < 4294967296 := by
  have key : ∀ m : List Nat, (∀ b ∈ m, b < 256) → leNat m < 256 ^ m.length := by
    intro m
    induction m with
    | nil => intro _; simp [leNat]
    | cons b t ih =>
        intro hm
        have hb0 : b < 256 := hm b (by simp)
        have ht := ih (fun x hx => hm x (by simp [hx]))
        have hc : leNat (b :: t) = b + 256 * leNat t := by simp [leNat]
        rw [hc, List.length_cons, pow_succ]
        nlinarith
  have h1 := key l hb
  have h2 : (256:Nat) ^ l.length ≤ 256 ^ 4 := Nat.pow_le_pow_right (by norm_num) hl
  have h3 : (256:Nat) ^ 4 = 4294967296 := by norm_num
  omega

/-- A 4-byte little-endian read from a buffer of genuine byte values fits in
32 bits. -/
theorem readLE32_lt {bytes : List Nat} (hb : ∀ b ∈ bytes, b < 256) (off : Nat) :
    readLE32 bytes off < 4294967296 := by
  apply leNat_lt
  · intro b hbmem
    exact hb b (List.mem_of_mem_drop (List.mem_of_mem_take hbmem))
  · exact List.length_take_le _ _

/-- Soundness of the scanner: a found chunk fits inside the buffer, and its
size is the 32-bit field read just before its body. -/
theorem findChunkAux_sound {bytes target : List Nat} :
    ∀ {fuel off start sz : Nat},
      findChunkAux bytes target fuel off = some (start, sz) →
      start + sz ≤ bytes.length ∧ 8 ≤ start ∧
        ∃ o, start = o + 8 ∧ sz = readLE32 bytes (o + 4) := by
  intro fuel
  induction fuel with
  | zero => intro off start sz h; simp [findChunkAux] at h
  | succ f ih =>
      intro off start sz h
      rw [findChunkAux] at h
      by_cases hg : off + 8 ≤ bytes.length
      · rw [if_pos hg] at h
        by_cases hfit : off + 8 + readLE32 bytes (off + 4) > bytes.length
        · simp only [hfit, if_true] at h; cases h
        · simp only [hfit, if_false] at h
          by_cases hid : tagAt bytes off = target
          · rw [if_pos hid] at h
            cases h
            exact ⟨by omega, by omega, off, rfl, rfl⟩
          · rw [if_neg hid] at h
            exact ih h
      · rw [if_neg hg] at h; cases h

/-- On a buffer of genuine byte values, a successful format parse reports a
declared size below 2^32. -/
theorem parse_fmt_sz_lt {bytes : List Nat} {f : WavFmt} {s : Nat}
    (hb : ∀ b ∈ bytes, b < 256) (h : parse_wav_fmt bytes = .ok (f, s)) :
    s < 4294967296 := by
  rw [parse_wav_fmt] at h
  by_cases hc : bytes.length < 12 ∨ tagAt bytes 0 ≠ riffTag ∨ tagAt bytes 8 ≠ waveTag
  · rw [if_pos hc] at h; cases h
  · rw [if_neg hc] at h
    rcases hfind : findChunk bytes fmtTag with _ | ⟨start, sz⟩
    · rw [hfind] at h; cases h
    · rw [hfind] at h
      by_cases hsz : sz < 16
      · simp [hsz] at h
      · simp [hsz] at h
        obtain ⟨-, -, o, -, hszr⟩ := findChunkAux_sound hfind
        have := readLE32_lt hb (o + 4)
        omega

/-- Counting an all-zero payload of 2n bytes: every one of the n samples is
silent. -/
theorem count16_zeros (n : Nat) : count16 (List.replicate (2 * n) 0) = (n, n) := by
  induction n with
  | zero => simp [count16]
  | succ m ih =>
      have h2 : 2 * (m + 1) = (2 * m) + 1 + 1 := by omega
      rw [h2, List.replicate_succ, List.replicate_succ]
      simp [count16, int16OfLE, silenceThreshold16, ih]

/-- Counting n copies of the loud two-byte pattern [0x00, 0x7F]: the decoded
sample is 32512, above the threshold, so no sample is silent. -/
theorem count16_loud (n : Nat) :
    count16 ((List.replicate n ([0, 127] : List Nat)).flatten) = (0, n) := by
  induction n with
  | zero => simp [count16]
  | succ m ih =>
      rw [List.replicate_succ]
      simp only [List.flatten_cons, List.cons_append, List.nil_append]
      simp [count16, int16OfLE, silenceThreshold16, ih]

/-- A slice whose bounds check succeeds. -/
theorem sliceChecked_eq {bytes : List Nat} {a b : Nat} (h1 : a ≤ b) (h2 : b ≤ bytes.length) :
    sliceChecked bytes a b = some ((bytes.drop a).take (b - a)) := by
  simp [sliceChecked, h1, h2]

/-- With fuel at least one unit per possible loop step, the instrumented
scanner never panics or exhausts its fuel, and agrees with the plain one. -/
theorem findChunkAuxC_eq {bytes target : List Nat} :
    ∀ fuel off, bytes.length + 1 ≤ 8 * fuel + off →
      findChunkAuxC bytes target fuel off = some (findChunkAux bytes target fuel off) := by
  intro fuel
  induction fuel with
  | zero =>
      intro off h
      have hg : ¬ (off + 8 ≤ bytes.length) := by omega
      simp [findChunkAuxC, findChunkAux, hg]
  | succ f ih =>
      intro off h
      by_cases hg : off + 8 ≤ bytes.length
      · have e1 : off + 4 - off = 4 := by omega
        have e2 : off + 8 - (off + 4) = 4 := by omega
        simp only [findChunkAuxC, findChunkAux, if_pos hg,
          sliceChecked_eq (show off ≤ off + 4 by omega) (show off + 4 ≤ bytes.length by omega),
          sliceChecked_eq (show off + 4 ≤ off + 8 by omega) (show off + 8 ≤ bytes.length by omega),
          e1, e2]
        by_cases hfit : off + 8 + leNat ((bytes.drop (off + 4)).take 4) > bytes.length
        · simp only [readLE32, hfit, if_true]
        · simp only [readLE32, hfit, if_false]
          by_cases hid : (bytes.drop off).take 4 = target
          · simp [tagAt, hid]
          · simp only [tagAt, if_neg hid]
            exact ih _ (by omega)
      · simp [findChunkAuxC, findChunkAux, hg]

/-- The instrumented format parser never panics: every slice access is in
bounds and the fuel suffices, so it computes the plain parser's result. -/
theorem parse_wav_fmtC_eq (bytes : List Nat) :
    parse_wav_fmtC bytes = some (parse_wav_fmt bytes) := by
  by_cases h12 : bytes.length < 12
  · rw [parse_wav_fmtC, if_pos h12, parse_wav_fmt, if_pos (Or.inl h12)]
  · rw [parse_wav_fmtC, if_neg h12]
    rw [sliceChecked_eq (show (0:Nat) ≤ 4 by omega) (by omega),
      sliceChecked_eq (show (8:Nat) ≤ 12 by omega) (by omega)]
    simp only [show (4:Nat) - 0 = 4 from rfl, show (12:Nat) - 8 = 4 from rfl]
    by_cases htags : (bytes.drop 0).take 4 = riffTag ∧ (bytes.drop 8).take 4 = waveTag
    · have hclean : ¬ (bytes.length < 12 ∨ tagAt bytes 0 ≠ riffTag ∨ tagAt bytes 8 ≠ waveTag) := by
        push_neg
        exact ⟨by omega, htags.1, htags.2⟩
      rw [parse_wav_fmt, if_neg hclean]
      simp only [if_pos htags]
      have hfc := @findChunkAuxC_eq bytes fmtTag (bytes.length + 1) 12 (by omega)
      rw [hfc]
      unfold findChunk
      rcases hfind : findChunkAux bytes fmtTag (bytes.length + 1) 12 with _ | ⟨start, sz⟩
      · simp
      · simp only []
        by_cases hsz : sz < 16
        · simp [hsz]
        · obtain ⟨hfit, hst8, -⟩ := findChunkAux_sound hfind
          have hb : start + 16 ≤ bytes.length := by omega
          rw [sliceChecked_eq (show start ≤ start + 2 by omega) (by omega),
            sliceChecked_eq (show start + 2 ≤ start + 4 by omega) (by omega),
            sliceChecked_eq (show start + 4 ≤ start + 8 by omega) (by omega),
            sliceChecked_eq (show start + 8 ≤ start + 12 by omega) (by omega),
            sliceChecked_eq (show start + 12 ≤ start + 14 by omega) (by omega),
            sliceChecked_eq (show start + 14 ≤ start + 16 by omega) (by omega)]
          have s1 : start + 2 - start = 2 := by omega
          have s2 : start + 4 - (start + 2) = 2 := by omega
          have s3 : start + 8 - (start + 4) = 4 := by omega
          have s4 : start + 12 - (start + 8) = 4 := by omega
          have s5 : start + 14 - (start + 12) = 2 := by omega
          have s6 : start + 16 - (start + 14) = 2 := by omega
          rw [s1, s2, s3, s4, s5, s6]
          simp [hsz, readLE16, readLE32]
    · have hclean : bytes.length < 12 ∨ tagAt bytes 0 ≠ riffTag ∨ tagAt bytes 8 ≠ waveTag := by
        rcases Decidable.not_and_iff_or_not.mp htags with h | h
        · exact Or.inr (Or.inl h)
        · exact Or.inr (Or.inr h)
      rw [parse_wav_fmt, if_pos hclean]
      simp only [if_neg htags]

/-- The instrumented data parser never panics: every slice access is in
bounds and the fuel suffices, so it computes the plain parser's result. -/
theorem parse_wav_dataC_eq (bytes : List Nat) :
    parse_wav_dataC bytes = some (parse_wav_data bytes) := by
  by_cases h12 : bytes.length < 12
  · rw [parse_wav_dataC, if_pos h12, parse_wav_data, if_pos (Or.inl h12)]
  · rw [parse_wav_dataC, if_neg h12]
    rw [sliceChecked_eq (show (0:Nat) ≤ 4 by omega) (by omega),
      sliceChecked_eq (show (8:Nat) ≤ 12 by omega) (by omega)]
    simp only [show (4:Nat) - 0 = 4 from rfl, show (12:Nat) - 8 = 4 from rfl]
    by_cases htags : (bytes.drop 0).take 4 = riffTag ∧ (bytes.drop 8).take 4 = waveTag
    · have hclean : ¬ (bytes.length < 12 ∨ tagAt bytes 0 ≠ riffTag ∨ tagAt bytes 8 ≠ waveTag) := by
        push_neg
        exact ⟨by omega, htags.1, htags.2⟩
      rw [parse_wav_data, if_neg hclean]
      simp only [if_pos htags]
      have hfc := @findChunkAuxC_eq bytes dataTag (bytes.length + 1) 12 (by omega)
      rw [hfc]
      unfold findChunk
      rcases hfind : findChunkAux bytes dataTag (bytes.length + 1) 12 with _ | ⟨start, sz⟩
      · simp
      · simp only []
        obtain ⟨hfit, hst8, -⟩ := findChunkAux_sound hfind
        rw [sliceChecked_eq (show start ≤ start + sz by omega) (by omega)]
        have s1 : start + sz - start = sz := by omega
        rw [s1]
    · have hclean : bytes.length < 12 ∨ tagAt bytes 0 ≠ riffTag ∨ tagAt bytes 8 ≠ waveTag := by
        rcases Decidable.not_and_iff_or_not.mp htags with h | h
        · exact Or.inr (Or.inl h)
        · exact Or.inr (Or.inr h)
      rw [parse_wav_data, if_pos hclean]
      simp only [if_neg htags]

/-- C1 (amended with N < 2^32): for every format descriptor whose fields fit
their machine integer widths and every payload of length N below 2^32,
parsing write_wav_header(fmt, 16, N) followed by the payload succeeds:
parse_wav_fmt returns the descriptor with declared fmt size 16, and
parse_wav_data returns exactly the payload.  The bound is forced by the
32-bit data-length field (see the counterexample at N = 2^32). -/
theorem claim_C1 (f : WavFmt) (hv : f.Valid) (N : Nat) (hN : N < 4294967296)
    (p : List Nat) (hp : p.length = N) :
    parse_wav_fmt (write_wav_header f 16 N ++ p) = .ok (f, 16) ∧
      parse_wav_data (write_wav_header f 16 N ++ p) = .ok p := by
  obtain ⟨af, nc, sr, br, ba, bps⟩ := f
  obtain ⟨h1, h2, h3, h4, h5, h6⟩ := hv
  constructor
  · rw [roundtrip_fmt16]
    have he : ({ audio_format := af % 65536,
                 num_channels := nc % 65536,
                 sample_rate := sr % 4294967296,
                 byte_rate := br % 4294967296,
                 block_align := ba % 65536,
                 bits_per_sample := bps % 65536 } : WavFmt) =
        { audio_format := af,
          num_channels := nc,
          sample_rate := sr,
          byte_rate := br,
          block_align := ba,
          bits_per_sample := bps } := by
      simp only [WavFmt.mk.injEq]
      exact ⟨Nat.mod_eq_of_lt h1, Nat.mod_eq_of_lt h2, Nat.mod_eq_of_lt h3,
        Nat.mod_eq_of_lt h4, Nat.mod_eq_of_lt h5, Nat.mod_eq_of_lt h6⟩
    rw [he]
  · rw [roundtrip_data16 _ N p hp, Nat.mod_eq_of_lt hN]
    rw [← hp, List.take_length]


/-- C1 witness: the round trip at a concrete descriptor and 4-byte payload. -/
theorem claim_C1_witness :
    parse_wav_fmt (write_wav_header fmtPCM 16 4 ++ [1, 2, 3, 4]) = .ok (fmtPCM, 16) ∧
      parse_wav_data (write_wav_header fmtPCM 16 4 ++ [1, 2, 3, 4]) = .ok [1, 2, 3, 4] :=
  claim_C1 fmtPCM (by decide) 4 (by norm_num) [1, 2, 3, 4] rfl


/-- C1 counterexample: with a payload of exactly 2^32 bytes the data length
field wraps to 0, so parse_wav_data returns the empty payload, not the
original one — the unamended claim fails at N = 2^32. -/
theorem claim_C1_counterexample :
    parse_wav_data (write_wav_header fmtPCM 16 bigPayload.length ++ bigPayload) =
      .ok [] ∧ ([] : List Nat) ≠ bigPayload := by
  have hlen : bigPayload.length = 4294967296 := List.length_replicate _ _
  constructor
  · rw [roundtrip_data16 fmtPCM bigPayload.length bigPayload rfl, hlen]
    have hm : (4294967296 : Nat) % 4294967296 = 0 := by norm_num
    rw [hm, List.take_zero]
  · intro h
    have h0 : bigPayload.length = 0 := by rw [← h]; rfl
    omega

/-- C5: the spec requires the header writer to reject or error when the data
length exceeds the 32-bit range, but the source leaves this unchecked (the
Rust function always returns Ok): at data length 2^32 the emitted header is
byte-identical to the one for data length 0, and its data-length field reads
back 0 — a silent truncation. -/
theorem claim_C5 :
    write_wav_header fmtPCM 16 4294967296 = write_wav_header fmtPCM 16 0 ∧
      readLE32 (write_wav_header fmtPCM 16 4294967296) 40 = 0 ∧
      (write_wav_header fmtPCM 16 4294967296).length = 44 := by
  refine ⟨by decide, by decide, by decide⟩

/-- C8: merging the empty fragment list succeeds with an empty byte
sequence. -/
theorem claim_C8 : try_merge_wav [] = .ok [] := rfl

/-- C10: both parsers are total and panic-free on arbitrary buffers: the
instrumented variants, in which every slice access carries its Rust bounds
check and fuel exhaustion is also a failure, always return the plain
model's result wrapped in some — no bounds check ever fails, because the
12-byte header check, the off + 8 guard, the chunk-overrun early break and
the 16-byte minimum fmt size precede every read. -/
theorem claim_C10 (bytes : List Nat) :
    parse_wav_fmtC bytes = some (parse_wav_fmt bytes) ∧
      parse_wav_dataC bytes = some (parse_wav_data bytes) :=
  ⟨parse_wav_fmtC_eq bytes, parse_wav_dataC_eq bytes⟩

/-- C2 (amended: the computed RIFF size 4 + (8 + fmt_size) + (8 + total data
length) must be below 2^32, since both size fields are 32 bits wide): for a
non-empty sequence of fragments that all parse with equal format descriptors,
the merge succeeds; the output is one fresh header followed by the payloads
in input order, its data length field holds the summed payload length, its
RIFF size field holds 4 + (8 + fmt_size) + (8 + sum) with fmt_size the first
fragment's declared fmt chunk size, and the bytes after the header are
exactly the concatenated payloads. -/
theorem claim_C2 (p0 : List Nat) (rest : List (List Nat)) (fmt : WavFmt) (fs : Nat)
    (d0 : List Nat) (ds : List (List Nat))
    (hf : parse_wav_fmt p0 = .ok (fmt, fs))
    (hd : parse_wav_data p0 = .ok d0)
    (hr : List.Forall₂
      (fun w d => (∃ s, parse_wav_fmt w = .ok (fmt, s)) ∧ parse_wav_data w = .ok d)
      rest ds)
    (hfit : 4 + (8 + fs) + (8 + ((d0 :: ds).map List.length).sum) < 4294967296) :
    try_merge_wav (p0 :: rest) =
      .ok (write_wav_header fmt fs (((d0 :: ds).map List.length).sum) ++
        (d0 :: ds).flatten) ∧
    readLE32 (write_wav_header fmt fs (((d0 :: ds).map List.length).sum) ++
        (d0 :: ds).flatten) (24 + fs) = ((d0 :: ds).map List.length).sum ∧
    readLE32 (write_wav_header fmt fs (((d0 :: ds).map List.length).sum) ++
        (d0 :: ds).flatten) 4 =
      4 + (8 + fs) + (8 + ((d0 :: ds).map List.length).sum) ∧
    (write_wav_header fmt fs (((d0 :: ds).map List.length).sum) ++
        (d0 :: ds).flatten).drop (28 + fs) = (d0 :: ds).flatten := by
  have h16 := parse_fmt_sz_ge hf
  have hT : ((d0 :: ds).map List.length).sum = d0.length + (ds.map List.length).sum := by
    simp
  have hTlt : ((d0 :: ds).map List.length).sum < 4294967296 := by omega
  refine ⟨?_, ?_, ?_, ?_⟩
  · rw [try_merge_wav_ok hf hd hr, hT]
  · rw [wwh_datalen_field fmt fs _ _ h16, Nat.mod_eq_of_lt hTlt]
  · rw [wwh_riff_field fmt fs _ _ h16, Nat.mod_eq_of_lt hTlt, Nat.mod_eq_of_lt hfit]
  · exact wwh_payload fmt fs _ _ h16

/-- C2 witness: merging two concrete compatible fragments with payload
lengths 4 and 2. -/
theorem claim_C2_witness :
    try_merge_wav [wav24kA, wav24kB] =
      .ok (write_wav_header fmtPCM 16 ((([1, 2, 3, 4] :: [[5, 6]]).map List.length).sum) ++
        (([1, 2, 3, 4] :: [[5, 6]]) : List (List Nat)).flatten) ∧
    readLE32 (write_wav_header fmtPCM 16 ((([1, 2, 3, 4] :: [[5, 6]]).map List.length).sum) ++
        (([1, 2, 3, 4] :: [[5, 6]]) : List (List Nat)).flatten) (24 + 16) =
      (([1, 2, 3, 4] :: [[5, 6]]).map List.length).sum ∧
    readLE32 (write_wav_header fmtPCM 16 ((([1, 2, 3, 4] :: [[5, 6]]).map List.length).sum) ++
        (([1, 2, 3, 4] :: [[5, 6]]) : List (List Nat)).flatten) 4 =
      4 + (8 + 16) + (8 + (([1, 2, 3, 4] :: [[5, 6]]).map List.length).sum) ∧
    (write_wav_header fmtPCM 16 ((([1, 2, 3, 4] :: [[5, 6]]).map List.length).sum) ++
        (([1, 2, 3, 4] :: [[5, 6]]) : List (List Nat)).flatten).drop (28 + 16) =
      (([1, 2, 3, 4] :: [[5, 6]]) : List (List Nat)).flatten :=
  claim_C2 wav24kA [wav24kB] fmtPCM 16 [1, 2, 3, 4] [[5, 6]] (by decide) (by decide)
    (List.Forall₂.cons ⟨⟨16, by decide⟩, by decide⟩ List.Forall₂.nil) (by norm_num)

/-- Sum of the payload lengths of a two-fragment merge, stated over
variables so that instantiation at huge concrete lists stays cheap. -/
theorem sum_lengths_pair (x : List Nat) :
    x.length + (([x] : List (List Nat)).map List.length).sum = x.length + x.length := by
  simp

/-- Concatenation of a two-element list of payloads, stated over variables. -/
theorem flatten_pair (x y : List Nat) :
    ((x :: [y]) : List (List Nat)).flatten = x ++ (y ++ []) := by
  simp

/-- C2 counterexample: two compatible fragments of 2^31 data bytes each merge
successfully, but the 32-bit data length field of the output wraps to 0
instead of holding the sum 2^32 — the unamended claim fails there. -/
theorem claim_C2_counterexample :
    try_merge_wav [wavHalf, wavHalf] = .ok mergedHalves ∧
      readLE32 mergedHalves (24 + 16) = 0 ∧
      halfPayload.length + halfPayload.length = 4294967296 := by
  have hlen : halfPayload.length = 2147483648 := List.length_replicate _ _
  have hf : parse_wav_fmt wavHalf = .ok (fmtPCM, 16) := by
    show parse_wav_fmt (write_wav_header fmtPCM 16 2147483648 ++ halfPayload) = _
    rw [roundtrip_fmt16]
    rfl
  have hd : parse_wav_data wavHalf = .ok halfPayload := by
    show parse_wav_data (write_wav_header fmtPCM 16 2147483648 ++ halfPayload) = _
    rw [roundtrip_data16 fmtPCM 2147483648 halfPayload hlen]
    rw [Nat.mod_eq_of_lt (by norm_num)]
    rw [← hlen, List.take_length]
  have htot : halfPayload.length + (([halfPayload] : List (List Nat)).map List.length).sum =
      4294967296 := by
    rw [sum_lengths_pair, hlen]
  have hmerge := try_merge_wav_ok hf hd
    (List.Forall₂.cons ⟨⟨16, hf⟩, hd⟩ List.Forall₂.nil)
  refine ⟨?_, ?_, by omega⟩
  · rw [hmerge, htot]
    show _ = Except.ok (write_wav_header fmtPCM 16 4294967296 ++
      (halfPayload ++ (halfPayload ++ [])))
    rw [flatten_pair]
  · show readLE32 (write_wav_header fmtPCM 16 4294967296 ++
      (halfPayload ++ (halfPayload ++ []))) (24 + 16) = 0
    rw [wwh_datalen_field fmtPCM 16 4294967296 _ (by norm_num)]

/-- C3: when the first fragment parses, every fragment parses, and some later
fragment's parsed format descriptor differs from the first fragment's in any
field, the merge returns the format-mismatch error (the code's message for
FormatMismatch) and produces no output — the error constructor carries no
bytes. -/
theorem claim_C3 (p0 : List Nat) (rest : List (List Nat)) (fmt0 : WavFmt) (s0 : Nat)
    (d0 : List Nat)
    (hf : parse_wav_fmt p0 = .ok (fmt0, s0)) (hd : parse_wav_data p0 = .ok d0)
    (hall : ∀ w ∈ rest, (∃ fw sw, parse_wav_fmt w = .ok (fw, sw)) ∧
      ∃ dw, parse_wav_data w = .ok dw)
    (hmis : ∃ w ∈ rest, ∀ fw sw, parse_wav_fmt w = .ok (fw, sw) → fw ≠ fmt0) :
    try_merge_wav (p0 :: rest) = .error "WAV format mismatch across chunks" := by
  simp [try_merge_wav, hf, hd, mergeRest_mismatch hall hmis]

/-- C3 witness: a 24000 Hz fragment followed by a 16000 Hz fragment fails
with the mismatch error. -/
theorem claim_C3_witness :
    try_merge_wav [wav24kA, wav16k] = .error "WAV format mismatch across chunks" :=
  claim_C3 wav24kA [wav16k] fmtPCM 16 [1, 2, 3, 4] (by decide) (by decide)
    (by
      intro w hw
      rw [List.mem_singleton] at hw
      subst hw
      exact ⟨⟨fmtPCM16k, 16, by decide⟩, [9, 9], by decide⟩)
    ⟨wav16k, by simp, by
      intro fw sw h
      have h2 := (show parse_wav_fmt wav16k = .ok (fmtPCM16k, 16) by decide).symm.trans h
      cases h2
      decide⟩

/-- C4: the dispatcher (modelled from process_file) selects the merged bytes
by the shared MIME type, in the code's test order: a single fragment passes
through unchanged; otherwise an MP3-like MIME (containing mpeg or mp3)
concatenates; otherwise a WAV-like MIME (containing wav, x-wav or pcm) uses
try_merge_wav, falling back to concatenation exactly when that fails; any
other MIME concatenates. -/
theorem claim_C4 (b0 : List Nat) (m : List Char) (ps : List (List Nat × List Char)) :
    (ps = [] → dispatch_merge ((b0, m) :: ps) = b0) ∧
    (ps ≠ [] →
      (strContains m ("mpeg".toList) || strContains m ("mp3".toList)) = true →
      dispatch_merge ((b0, m) :: ps) = merge_concat (((b0, m) :: ps).map Prod.fst)) ∧
    (ps ≠ [] →
      (strContains m ("mpeg".toList) || strContains m ("mp3".toList)) = false →
      (strContains m ("wav".toList) || strContains m ("x-wav".toList) ||
        strContains m ("pcm".toList)) = true →
      (∀ r, try_merge_wav (((b0, m) :: ps).map Prod.fst) = .ok r →
        dispatch_merge ((b0, m) :: ps) = r) ∧
      (∀ e, try_merge_wav (((b0, m) :: ps).map Prod.fst) = .error e →
        dispatch_merge ((b0, m) :: ps) = merge_concat (((b0, m) :: ps).map Prod.fst))) ∧
    (ps ≠ [] →
      (strContains m ("mpeg".toList) || strContains m ("mp3".toList)) = false →
      (strContains m ("wav".toList) || strContains m ("x-wav".toList) ||
        strContains m ("pcm".toList)) = false →
      dispatch_merge ((b0, m) :: ps) = merge_concat (((b0, m) :: ps).map Prod.fst)) := by
  have hlen : ps ≠ [] → ((b0, m) :: ps).length ≠ 1 := by
    intro hps h
    rw [List.length_cons] at h
    have h0 : ps.length = 0 := by omega
    exact hps (List.length_eq_zero.mp h0)
  refine ⟨?_, ?_, ?_, ?_⟩
  · intro hps
    subst hps
    simp [dispatch_merge]
  · intro hps hmp3
    simp only [dispatch_merge]
    rw [if_neg (hlen hps), hmp3, if_pos rfl]
    rfl
  · intro hps hmp3 hwav
    constructor
    · intro r hr
      simp only [dispatch_merge]
      rw [if_neg (hlen hps), hmp3, if_neg Bool.false_ne_true, hwav, if_pos rfl, hr]
    · intro e he
      simp only [dispatch_merge]
      rw [if_neg (hlen hps), hmp3, if_neg Bool.false_ne_true, hwav, if_pos rfl, he]
  · intro hps hmp3 hwav
    simp only [dispatch_merge]
    rw [if_neg (hlen hps), hmp3, if_neg Bool.false_ne_true, hwav,
      if_neg Bool.false_ne_true]

/-- C4 witness: the three main paths exercised on concrete fragments — a
single WAV-MIME fragment passes through; two MP3 fragments concatenate; two
WAV-MIME fragments that fail WAV parsing fall back to concatenation. -/
theorem claim_C4_witness :
    dispatch_merge [([9, 9], "audio/wav".toList)] = [9, 9] ∧
    dispatch_merge [([1], "audio/mpeg".toList), ([2], "audio/mpeg".toList)] =
      merge_concat [[1], [2]] ∧
    dispatch_merge [([1, 2], "audio/wav".toList), ([3], "audio/wav".toList)] =
      merge_concat [[1, 2], [3]] :=
  ⟨(claim_C4 [9, 9] ("audio/wav".toList) []).1 rfl,
   (claim_C4 [1] ("audio/mpeg".toList) [([2], "audio/mpeg".toList)]).2.1
     (by simp) (by decide),
   ((claim_C4 [1, 2] ("audio/wav".toList) [([3], "audio/wav".toList)]).2.2.1
     (by simp) (by decide) (by decide)).2 "invalid WAV header" (by decide)⟩

/-- Length of n concatenated copies of the two-byte loud pattern. -/
theorem length_flatten_pair (n : Nat) :
    ((List.replicate n ([0, 127] : List Nat)).flatten).length = 2 * n := by
  induction n with
  | zero => simp
  | succ m ih =>
      rw [List.replicate_succ, List.flatten_cons]
      simp only [List.length_append, ih, List.length_cons, List.length_nil]
      omega

/-- C7: on a parseable WAV with audio format 1 and 16 bits per sample, an
all-zero payload of positive even length gives silence ratio exactly 1, and
a payload of N ≥ 1 copies of the two-byte pattern [0x00, 0x7F] (sample value
32512, above the threshold 327 = floor(32767 * 0.01)) gives ratio exactly 0.
The rational 1 and 0 coincide with the f32 values 1.0 and 0.0 the Rust code
computes at these points. -/
theorem claim_C7 (bytes : List Nat) (fmt : WavFmt) (s : Nat) (payload : List Nat)
    (n : Nat) (hf : parse_wav_fmt bytes = .ok (fmt, s)) (haf : fmt.audio_format = 1)
    (hbps : fmt.bits_per_sample = 16) (hd : parse_wav_data bytes = .ok payload)
    (hn : 1 ≤ n) :
    (payload = List.replicate (2 * n) 0 →
      estimate_wav_silence_ratio_pcm16 bytes = .ok 1) ∧
    (payload = (List.replicate n ([0, 127] : List Nat)).flatten →
      estimate_wav_silence_ratio_pcm16 bytes = .ok 0) := by
  constructor
  · intro hpay
    subst hpay
    simp only [estimate_wav_silence_ratio_pcm16, hf, hd]
    simp only [List.length_replicate]
    rw [if_neg (by omega), if_pos (show fmt.audio_format = 1 ∧ fmt.bits_per_sample = 16
      from ⟨haf, hbps⟩), if_neg (by omega)]
    simp only [count16_zeros]
    have hne : ((n : ℚ)) ≠ 0 := Nat.cast_ne_zero.mpr (by omega)
    simp [div_self hne]
  · intro hpay
    subst hpay
    simp only [estimate_wav_silence_ratio_pcm16, hf, hd]
    simp only [length_flatten_pair]
    rw [if_neg (by omega), if_pos (show fmt.audio_format = 1 ∧ fmt.bits_per_sample = 16
      from ⟨haf, hbps⟩), if_neg (by omega)]
    simp only [count16_loud]
    simp

/-- C7 witness: a concrete all-zero four-byte payload has ratio 1, and a
concrete [0, 127, 0, 127] payload has ratio 0. -/
theorem claim_C7_witness :
    estimate_wav_silence_ratio_pcm16 (write_wav_header fmtPCM 16 4 ++ [0, 0, 0, 0]) =
      .ok 1 ∧
    estimate_wav_silence_ratio_pcm16 (write_wav_header fmtPCM 16 4 ++ [0, 127, 0, 127]) =
      .ok 0 :=
  ⟨(claim_C7 (write_wav_header fmtPCM 16 4 ++ [0, 0, 0, 0]) fmtPCM 16 [0, 0, 0, 0] 2
      (by decide) rfl rfl (by decide) (by norm_num)).1 (by decide),
   (claim_C7 (write_wav_header fmtPCM 16 4 ++ [0, 127, 0, 127]) fmtPCM 16 [0, 127, 0, 127] 2
      (by decide) rfl rfl (by decide) (by norm_num)).2 (by decide)⟩

/-- C9: the extension classifier is a total function on MIME strings that
applies case-sensitive substring rules in fixed priority order — mpeg/mp3
first, then wav/x-wav/pcm/linear16, then ogg, then flac, then the .bin
default — and maps the four concrete examples accordingly. -/
theorem claim_C9 (m : List Char) :
    ((strContains m ("mpeg".toList) || strContains m ("mp3".toList)) = true →
      guess_audio_extension m = ".mp3".toList) ∧
    ((strContains m ("mpeg".toList) || strContains m ("mp3".toList)) = false →
      (strContains m ("wav".toList) || strContains m ("x-wav".toList) ||
        strContains m ("pcm".toList) || strContains m ("linear16".toList)) = true →
      guess_audio_extension m = ".wav".toList) ∧
    ((strContains m ("mpeg".toList) || strContains m ("mp3".toList)) = false →
      (strContains m ("wav".toList) || strContains m ("x-wav".toList) ||
        strContains m ("pcm".toList) || strContains m ("linear16".toList)) = false →
      strContains m ("ogg".toList) = true →
      guess_audio_extension m = ".ogg".toList) ∧
    ((strContains m ("mpeg".toList) || strContains m ("mp3".toList)) = false →
      (strContains m ("wav".toList) || strContains m ("x-wav".toList) ||
        strContains m ("pcm".toList) || strContains m ("linear16".toList)) = false →
      strContains m ("ogg".toList) = false →
      strContains m ("flac".toList) = true →
      guess_audio_extension m = ".flac".toList) ∧
    ((strContains m ("mpeg".toList) || strContains m ("mp3".toList)) = false →
      (strContains m ("wav".toList) || strContains m ("x-wav".toList) ||
        strContains m ("pcm".toList) || strContains m ("linear16".toList)) = false →
      strContains m ("ogg".toList) = false →
      strContains m ("flac".toList) = false →
      guess_audio_extension m = ".bin".toList) ∧
    guess_audio_extension ("audio/mpeg;codec=mp3".toList) = ".mp3".toList ∧
    guess_audio_extension ("audio/x-wav".toList) = ".wav".toList ∧
    guess_audio_extension ("audio/ogg".toList) = ".ogg".toList ∧
    guess_audio_extension ("text/plain".toList) = ".bin".toList := by
  refine ⟨?_, ?_, ?_, ?_, ?_, by decide, by decide, by decide, by decide⟩
  · intro h1
    simp only [guess_audio_extension]
    rw [h1, if_pos rfl]
  · intro h1 h2
    simp only [guess_audio_extension]
    rw [h1, if_neg Bool.false_ne_true, h2, if_pos rfl]
  · intro h1 h2 h3
    simp only [guess_audio_extension]
    rw [h1, if_neg Bool.false_ne_true, h2, if_neg Bool.false_ne_true, h3, if_pos rfl]
  · intro h1 h2 h3 h4
    simp only [guess_audio_extension]
    rw [h1, if_neg Bool.false_ne_true, h2, if_neg Bool.false_ne_true, h3,
      if_neg Bool.false_ne_true, h4, if_pos rfl]
  · intro h1 h2 h3 h4
    simp only [guess_audio_extension]
    rw [h1, if_neg Bool.false_ne_true, h2, if_neg Bool.false_ne_true, h3,
      if_neg Bool.false_ne_true, h4, if_neg Bool.false_ne_true]

/-- C9 witness: an application of the priority rules at a concrete MIME
string that only the flac rule matches. -/
theorem claim_C9_witness :
    guess_audio_extension ("audio/flac".toList) = ".flac".toList :=
  (claim_C9 ("audio/flac".toList)).2.2.2.1 (by decide) (by decide) (by decide) (by decide)

/-- Value of an emitted 32-bit field. -/
theorem leNat_le32 (v : Nat) : leNat (le32 v) = v % 4294967296 := by
  simp [le32, leNat]
  omega

/-- C6: word alignment of the chunk scan.  In a buffer whose outer header is
valid and whose first sub-chunk is a non-matching chunk of odd declared
length L, followed by its L payload bytes plus exactly one pad byte (not
counted in L) and then by the sought chunk, the scanners stay synchronized:
parse_wav_fmt still finds the fmt chunk right after the pad byte and decodes
its fields from the right offsets, and parse_wav_data likewise returns
exactly the sought data chunk's payload. -/
theorem claim_C6 (s0 s1 s2 s3 j0 j1 j2 j3 pb : Nat) (L : Nat) (jpay : List Nat)
    (fs : Nat) (fpay : List Nat) (D : Nat) (dpay : List Nat)
    (hL : L % 2 = 1) (hL32 : L < 4294967296) (hjp : jpay.length = L)
    (hfs : 16 ≤ fs) (hfs32 : fs < 4294967296) (hfp : fpay.length = fs)
    (hjf : ([j0, j1, j2, j3] : List Nat) ≠ fmtTag)
    (hD : D < 4294967296) (hdp : dpay.length = D)
    (hjd : ([j0, j1, j2, j3] : List Nat) ≠ dataTag) :
    parse_wav_fmt (riffTag ++ ([s0, s1, s2, s3] ++ (waveTag ++ ([j0, j1, j2, j3] ++
        (le32 L ++ (jpay ++ ([pb] ++ (fmtTag ++ (le32 fs ++ fpay))))))))) =
      .ok ({ audio_format := readLE16 fpay 0
             num_channels := readLE16 fpay 2
             sample_rate := readLE32 fpay 4
             byte_rate := readLE32 fpay 8
             block_align := readLE16 fpay 12
             bits_per_sample := readLE16 fpay 14 }, fs) ∧
    parse_wav_data (riffTag ++ ([s0, s1, s2, s3] ++ (waveTag ++ ([j0, j1, j2, j3] ++
        (le32 L ++ (jpay ++ ([pb] ++ (dataTag ++ (le32 D ++ dpay))))))))) =
      .ok dpay := by
  constructor
  · set B1 : List Nat := riffTag ++ ([s0, s1, s2, s3] ++ (waveTag ++ ([j0, j1, j2, j3] ++
      (le32 L ++ (jpay ++ ([pb] ++ (fmtTag ++ (le32 fs ++ fpay)))))))) with hB1
    have hlen1 : B1.length = 29 + L + fs := by
      rw [hB1]
      simp [riffTag, waveTag, fmtTag, le32, List.length_append]
      omega
    have ht0 : tagAt B1 0 = riffTag := rfl
    have ht8 : tagAt B1 8 = waveTag := rfl
    have ht12 : tagAt B1 12 = [j0, j1, j2, j3] := rfl
    have hsz16 : readLE32 B1 16 = L := by
      have h1 : readLE32 B1 16 = leNat (le32 L) := rfl
      rw [h1, leNat_le32, Nat.mod_eq_of_lt hL32]
    have hd20 : B1.drop 20 = jpay ++ ([pb] ++ (fmtTag ++ (le32 fs ++ fpay))) := rfl
    have hd21L : B1.drop (21 + L) = fmtTag ++ (le32 fs ++ fpay) := by
      rw [show 21 + L = 20 + (L + 1) from by omega, ← List.drop_drop, hd20,
        drop_peel jpay _ 1 (L + 1) (by omega)]
      rfl
    have ht21L : tagAt B1 (21 + L) = fmtTag := by
      rw [tagAt, hd21L]
      rfl
    have hsz21L : readLE32 B1 (21 + L + 4) = fs := by
      rw [readLE32, show 21 + L + 4 = (21 + L) + 4 from rfl, ← List.drop_drop, hd21L]
      have h2 : ((fmtTag ++ (le32 fs ++ fpay)).drop 4).take 4 = le32 fs := by
        rw [show (fmtTag ++ (le32 fs ++ fpay)).drop 4 = le32 fs ++ fpay from rfl]
        rw [List.take_left' (by simp [le32])]
      rw [h2, leNat_le32, Nat.mod_eq_of_lt hfs32]
    have hstart : B1.drop (21 + L + 8) = fpay := by
      rw [show 21 + L + 8 = (21 + L) + 8 from rfl, ← List.drop_drop, hd21L]
      rfl
    have hfind : findChunk B1 fmtTag = some (21 + L + 8, readLE32 B1 (21 + L + 4)) := by
      unfold findChunk
      rw [hlen1]
      rw [findChunkAux_skip (by omega) (by rw [hsz16]; omega) (by rw [ht12]; exact hjf)]
      rw [hsz16, show 12 + 8 + L + L % 2 = 21 + L from by omega]
      exact findChunkAux_found (by omega) (by omega)
        (by rw [hsz21L]; omega) ht21L
    have hcond : ¬ (B1.length < 12 ∨ tagAt B1 0 ≠ riffTag ∨ tagAt B1 8 ≠ waveTag) := by
      push_neg
      exact ⟨by omega, ht0, ht8⟩
    rw [parse_wav_fmt, if_neg hcond, hfind]
    rw [hsz21L]
    simp only []
    rw [if_neg (by omega : ¬ fs < 16)]
    have hf1 : readLE16 B1 (21 + L + 8) = readLE16 fpay 0 := by
      simp only [readLE16, hstart, List.drop_zero]
    have hf2 : readLE16 B1 (21 + L + 8 + 2) = readLE16 fpay 2 := by
      simp only [readLE16]
      rw [show 21 + L + 8 + 2 = (21 + L + 8) + 2 from rfl, ← List.drop_drop, hstart]
    have hf3 : readLE32 B1 (21 + L + 8 + 4) = readLE32 fpay 4 := by
      simp only [readLE32]
      rw [show 21 + L + 8 + 4 = (21 + L + 8) + 4 from rfl, ← List.drop_drop, hstart]
    have hf4 : readLE32 B1 (21 + L + 8 + 8) = readLE32 fpay 8 := by
      simp only [readLE32]
      rw [show 21 + L + 8 + 8 = (21 + L + 8) + 8 from rfl, ← List.drop_drop, hstart]
    have hf5 : readLE16 B1 (21 + L + 8 + 12) = readLE16 fpay 12 := by
      simp only [readLE16]
      rw [show 21 + L + 8 + 12 = (21 + L + 8) + 12 from rfl, ← List.drop_drop, hstart]
    have hf6 : readLE16 B1 (21 + L + 8 + 14) = readLE16 fpay 14 := by
      simp only [readLE16]
      rw [show 21 + L + 8 + 14 = (21 + L + 8) + 14 from rfl, ← List.drop_drop, hstart]
    rw [hf1, hf2, hf3, hf4, hf5, hf6]
  · set B2 : List Nat := riffTag ++ ([s0, s1, s2, s3] ++ (waveTag ++ ([j0, j1, j2, j3] ++
      (le32 L ++ (jpay ++ ([pb] ++ (dataTag ++ (le32 D ++ dpay)))))))) with hB2
    have hlen2 : B2.length = 29 + L + D := by
      rw [hB2]
      simp [riffTag, waveTag, dataTag, le32, List.length_append]
      omega
    have ht0 : tagAt B2 0 = riffTag := rfl
    have ht8 : tagAt B2 8 = waveTag := rfl
    have ht12 : tagAt B2 12 = [j0, j1, j2, j3] := rfl
    have hsz16 : readLE32 B2 16 = L := by
      have h1 : readLE32 B2 16 = leNat (le32 L) := rfl
      rw [h1, leNat_le32, Nat.mod_eq_of_lt hL32]
    have hd20 : B2.drop 20 = jpay ++ ([pb] ++ (dataTag ++ (le32 D ++ dpay))) := rfl
    have hd21L : B2.drop (21 + L) = dataTag ++ (le32 D ++ dpay) := by
      rw [show 21 + L = 20 + (L + 1) from by omega, ← List.drop_drop, hd20,
        drop_peel jpay _ 1 (L + 1) (by omega)]
      rfl
    have ht21L : tagAt B2 (21 + L) = dataTag := by
      rw [tagAt, hd21L]
      rfl
    have hsz21L : readLE32 B2 (21 + L + 4) = D := by
      rw [readLE32, show 21 + L + 4 = (21 + L) + 4 from rfl, ← List.drop_drop, hd21L]
      have h2 : ((dataTag ++ (le32 D ++ dpay)).drop 4).take 4 = le32 D := by
        rw [show (dataTag ++ (le32 D ++ dpay)).drop 4 = le32 D ++ dpay from rfl]
        rw [List.take_left' (by simp [le32])]
      rw [h2, leNat_le32, Nat.mod_eq_of_lt hD]
    have hstart : B2.drop (21 + L + 8) = dpay := by
      rw [show 21 + L + 8 = (21 + L) + 8 from rfl, ← List.drop_drop, hd21L]
      rfl
    have hfind : findChunk B2 dataTag = some (21 + L + 8, readLE32 B2 (21 + L + 4)) := by
      unfold findChunk
      rw [hlen2]
      rw [findChunkAux_skip (by omega) (by rw [hsz16]; omega) (by rw [ht12]; exact hjd)]
      rw [hsz16, show 12 + 8 + L + L % 2 = 21 + L from by omega]
      exact findChunkAux_found (by omega) (by omega)
        (by rw [hsz21L]; omega) ht21L
    have hcond : ¬ (B2.length < 12 ∨ tagAt B2 0 ≠ riffTag ∨ tagAt B2 8 ≠ waveTag) := by
      push_neg
      exact ⟨by omega, ht0, ht8⟩
    rw [parse_wav_data, if_neg hcond, hfind]
    rw [hsz21L]
    simp only []
    rw [hstart, ← hdp, List.take_length]

/-- C6 witness: a concrete odd-length junk chunk (id JUNK, length 1, one
payload byte, one pad byte) followed by the sought chunk, for both parsers. -/
theorem claim_C6_witness :
    parse_wav_fmt (riffTag ++ ([0, 0, 0, 0] ++ (waveTag ++ ([74, 85, 78, 75] ++
        (le32 1 ++ ([7] ++ ([0] ++ (fmtTag ++ (le32 16 ++
          [1, 0, 1, 0, 192, 93, 0, 0, 128, 187, 0, 0, 2, 0, 16, 0]))))))))) =
      .ok ({ audio_format :=
               readLE16 [1, 0, 1, 0, 192, 93, 0, 0, 128, 187, 0, 0, 2, 0, 16, 0] 0
             num_channels :=
               readLE16 [1, 0, 1, 0, 192, 93, 0, 0, 128, 187, 0, 0, 2, 0, 16, 0] 2
             sample_rate :=
               readLE32 [1, 0, 1, 0, 192, 93, 0, 0, 128, 187, 0, 0, 2, 0, 16, 0] 4
             byte_rate :=
               readLE32 [1, 0, 1, 0, 192, 93, 0, 0, 128, 187, 0, 0, 2, 0, 16, 0] 8
             block_align :=
               readLE16 [1, 0, 1, 0, 192, 93, 0, 0, 128, 187, 0, 0, 2, 0, 16, 0] 12
             bits_per_sample :=
               readLE16 [1, 0, 1, 0, 192, 93, 0, 0, 128, 187, 0, 0, 2, 0, 16, 0] 14 }, 16) ∧
    parse_wav_data (riffTag ++ ([0, 0, 0, 0] ++ (waveTag ++ ([74, 85, 78, 75] ++
        (le32 1 ++ ([7] ++ ([0] ++ (dataTag ++ (le32 2 ++ [5, 6]))))))))) =
      .ok [5, 6] :=
  claim_C6 0 0 0 0 74 85 78 75 0 1 [7] 16
    [1, 0, 1, 0, 192, 93, 0, 0, 128, 187, 0, 0, 2, 0, 16, 0] 2 [5, 6]
    (by decide) (by norm_num) rfl (by norm_num) (by norm_num) rfl (by decide)
    (by norm_num) rfl (by decide)
